import Mathlib

/-!
Verification development for the `transpose` music-quiz core
(`src/transpose.py`).  Python strings are embedded as lists of character
codes (`PyStr`), Python integers as `Int` with Python's `%` and `//` on a
positive modulus rendered as `Int.emod` / `Int.ediv` (they agree with
Python's floor semantics for positive divisors).  Fallible parsing code
returns `Option`; a second family of definitions returning `Except`
models where a Python exception could propagate, with `try`/`except`
rendered as recovery on `.error`.
-/

/-- A Python string, as its list of character codes. -/
abbrev PyStr := List Nat

/-- Code of the character, lowercased, as `str.lower` maps A-Z. -/
def lowerC (c : Nat) : Nat :=
  if 65 ≤ c ∧ c ≤ 90 then c + 32 else c

/-- Is the character code an ASCII digit 0-9. -/
def isDigitC (c : Nat) : Bool :=
  decide (48 ≤ c ∧ c ≤ 57)

/-- Decimal digits of `n`, most significant first, as character codes;
structural in a fuel argument so that the kernel can evaluate it
(`fuel > n` suffices, see `natReprAux_spec`). -/
def natReprAux : Nat → Nat → PyStr
  | 0, _ => []
  | fuel + 1, n =>
    if n < 10 then [48 + n]
    else natReprAux fuel (n / 10) ++ [48 + n % 10]

/-- Python `str(n)` for a nonnegative integer `n`. -/
def natRepr (n : Nat) : PyStr := natReprAux (n + 1) n

/-- Python `str(i)` for an arbitrary integer: digits, with a leading
minus sign when negative. -/
def intRepr (i : Int) : PyStr :=
  if i < 0 then 45 :: natRepr i.natAbs else natRepr i.natAbs

/-- Accumulating decimal reader: consumes the whole list, failing on the
first non-digit character. -/
def digitsToNat : List Nat → Nat → Option Nat
  | [], acc => some acc
  | c :: cs, acc =>
    if 48 ≤ c ∧ c ≤ 57 then digitsToNat cs (acc * 10 + (c - 48)) else none

/-- Python `int(text)` on a plain optionally signed decimal string
(`none` models the `ValueError` raised on anything else; the
whitespace/underscore forms accepted by CPython are not exercised by the
repository and are not modelled). -/
def pyIntParse : PyStr → Option Int
  | [] => none
  | c :: cs =>
    if c = 45 then
      match cs with
      | [] => none
      | _ :: _ => (digitsToNat cs 0).map (fun v => -(v : Int))
    else if c = 43 then
      match cs with
      | [] => none
      | _ :: _ => (digitsToNat cs 0).map (fun v => (v : Int))
    else (digitsToNat (c :: cs) 0).map (fun v => (v : Int))

/-- The pure quality/number branch of `Interval.from_name` (everything
after `quality, number = name[0], int(name[1:])` succeeded), from
`src/transpose.py` lines 216-235.  Character codes: p=112 u=117 a=97
d=100 m=109. -/
def intervalParseQN (q : Nat) (number : Int) : Option Int :=
  if number ≤ 0 then none
  else if number = 1 then
    if lowerC q = 112 ∨ lowerC q = 117 ∨ lowerC q = 97 then
      some (if lowerC q = 97 then 1 else 0)
    else none
  else
    let octaves := (number - 1) / 7
    let sn := (number - 1) % 7
    if sn = 0 ∨ sn = 3 ∨ sn = 4 then
      if lowerC q = 112 ∨ lowerC q = 97 ∨ lowerC q = 100 then
        let shift : Int := if lowerC q = 112 then 0 else if lowerC q = 100 then -1 else 1
        let st : Int := (if sn = 0 then 0 else if sn = 3 then 5 else 7) + 12 * octaves
        some (st + shift)
      else none
    else
      if lowerC q = 97 ∨ lowerC q = 100 ∨ lowerC q = 109 then
        let shift : Int := (if lowerC q = 100 then -2 else if lowerC q = 97 then 1 else 0)
          + (if q = 109 then -1 else 0)
        let st : Int := (if sn = 1 then 2 else if sn = 2 then 4 else if sn = 5 then 9 else 11)
          + 12 * octaves
        some (st + shift)
      else none

/-- `Interval.from_name` (`src/transpose.py` lines 190-235): the `try`
block reads `name[0]` and `int(name[1:])`, returning `None` on failure. -/
def intervalFromName (name : PyStr) : Option Int :=
  match name with
  | [] => none
  | q :: rest =>
    match pyIntParse rest with
    | none => none
    | some number => intervalParseQN q number

/-- `INTERVAL_NUMBER` table (semitone residue to diatonic number). -/
def intervalNumberTab (ic : Nat) : Nat :=
  [1, 2, 2, 3, 3, 4, 5, 5, 6, 6, 7, 7].getD ic 0

/-- `INTERVAL_QUALITY` table (semitone residue to quality letter code:
P=80 m=109 M=77 d=100). -/
def intervalQualityTab (ic : Nat) : Nat :=
  [80, 109, 77, 109, 77, 80, 100, 80, 109, 77, 109, 77].getD ic 0

/-- `Interval.__str__` (`src/transpose.py` lines 237-248). -/
def intervalStr (n : Int) : PyStr :=
  let val := n.natAbs
  let octave := val / 12
  let ic := val % 12
  if octave = 0 ∧ ic = 0 then [85, 49]
  else (if n < 0 then [45] else [])
    ++ [intervalQualityTab ic] ++ natRepr (intervalNumberTab ic + 7 * octave)

/-- `IntervalClass.from_name`: parse as an `Interval`, then normalize
into `Z12` (`src/transpose.py` lines 259-268, 88-92). -/
def icFromName (name : PyStr) : Option Int :=
  (intervalFromName name).map (fun v => v % 12)

/-- A `PitchClass` value: `value` is the `Torsor(Z12)` residue (the
wrapped `Z12`, always reduced mod 12), `acc` the separately stored
signed accidental count (`src/transpose.py` lines 295-306). -/
structure PC where
  value : Int
  acc : Int
deriving DecidableEq, Repr

/-- The right-to-left accidental-stripping loop of `PitchClass.from_name`
(`while len(name) > 1`), fed the reversed lowercased name: returns the
reversed remainder (length at most 1) and the accumulated shift, or
`none` on an unrecognized modifier character (s=115 #=35 b=98). -/
def pcStripRev : List Nat → Int → Option (List Nat × Int)
  | [], shift => some ([], shift)
  | [c], shift => some ([c], shift)
  | c :: rest, shift =>
    if c = 115 ∨ c = 35 then pcStripRev rest (shift + 1)
    else if c = 98 then pcStripRev rest (shift - 1)
    else none

/-- The `name_map` dict of `PitchClass.from_name`, keyed by the
(lowercased, fully stripped) remaining name. -/
def letterMap : List (List Nat × Int) :=
  [([99], 0), ([100], 2), ([101], 4), ([102], 5), ([103], 7), ([97], 9), ([98], 11)]

/-- Python `name_map[name]` guarded by `name in name_map`. -/
def lookupLetter (k : List Nat) : Option Int :=
  (letterMap.find? (fun e => e.1 == k)).map (fun e => e.2)

/-- `PitchClass.from_name` (`src/transpose.py` lines 308-352). -/
def pcFromName (name0 : PyStr) : Option PC :=
  let name := name0.map lowerC
  match pcStripRev name.reverse 0 with
  | none => none
  | some (baseRev, shift) =>
    match lookupLetter baseRev.reverse with
    | none => none
    | some r =>
      let accidental := if 0 ≤ shift ∧ ¬(r = 4 ∨ r = 11) then shift - 1 else shift
      some ⟨(r + shift) % 12, accidental⟩

/-- Transposition `PitchClass.__add__` (`src/transpose.py` lines
354-355): the residue moves inside `Z12`, the accidental is kept. -/
def pcAdd (pc : PC) (s : Int) : PC :=
  ⟨(pc.value + s) % 12, pc.acc⟩

/-- Transposition `PitchClass.__sub__` (`src/transpose.py` lines
356-357). -/
def pcSub (pc : PC) (s : Int) : PC :=
  ⟨(pc.value - s) % 12, pc.acc⟩

/-- The `BASE_NAMES` table (semitone residue to letter code, A=65 ... G=71). -/
def baseNamesTab : List Nat :=
  [67, 67, 68, 68, 69, 70, 70, 71, 71, 65, 65, 66]

/-- `PitchClass.__str__` (`src/transpose.py` lines 359-363). -/
def pcStr (pc : PC) : PyStr :=
  let shifted := (pc.value - pc.acc) % 12
  let extra : Int :=
    if shifted = 1 ∨ shifted = 3 ∨ shifted = 6 ∨ shifted = 8 ∨ shifted = 10 then 1 else 0
  let shnum := extra + pc.acc
  baseNamesTab.getD shifted.toNat 0 ::
    (if 0 ≤ shnum then List.replicate shnum.toNat 35 else List.replicate (-shnum).toNat 98)

/-- `MIDInn.norm` (`src/transpose.py` lines 435-437): silent clamp to
[0,127]. -/
def midiNorm (n : Int) : Int :=
  if n < 0 then 0 else if n > 127 then 127 else n

/-- The index scan of `MIDInn.from_name` (`src/transpose.py` lines
419-423): index of the rightmost non-digit character, 0 when none. -/
def scanIdx (name : PyStr) : Nat :=
  match name.reverse.findIdx? (fun c => !(isDigitC c)) with
  | some p => name.length - 1 - p
  | none => 0

/-- `MIDInn.from_name` (`src/transpose.py` lines 402-433).  When the
boundary character is `-` it is left with the octave digits; the octave
is adjusted by `(pc.value - pc.acc) // 12` (Python floor division, equal
to `Int.ediv` for the positive divisor); the result is clamped by
`MIDInn.norm`. -/
def midiFromName (name : PyStr) : Option Int :=
  let idx0 := scanIdx name
  match name.get? idx0 with
  | none => none
  | some c =>
    let j := if c = 45 then idx0 else idx0 + 1
    match pcFromName (name.take j) with
    | none => none
    | some pc =>
      match pyIntParse (name.drop j) with
      | none => none
      | some o =>
        let octave := o - (pc.value - pc.acc) / 12
        some (midiNorm (60 + pc.value + (octave - 4) * 12))

/-- `MIDInn.__str__` (`src/transpose.py` lines 439-442): the octave is
`4 + (n-60)//12`, the pitch class `PitchClass(n-60)` (so accidental 0). -/
def midiStr (n : Int) : PyStr :=
  let octave := 4 + (n - 60) / 12
  pcStr ⟨(n - 60) % 12, 0⟩ ++ intRepr octave

/-- Raising Python subscript `text[i]`: `IndexError` is `.error`. -/
def pyIndexE (l : PyStr) (i : Nat) : Except Unit Nat :=
  match l.get? i with
  | some c => .ok c
  | none => .error ()

/-- Raising Python `int(text)`: `ValueError` is `.error`. -/
def pyIntE (l : PyStr) : Except Unit Int :=
  match pyIntParse l with
  | some v => .ok v
  | none => .error ()

/-- Raising Python dict subscript with character-code keys: `KeyError`
is `.error`. -/
def dictGetE (d : List (Nat × Int)) (k : Nat) : Except Unit Int :=
  match d.find? (fun e => e.1 == k) with
  | some e => .ok e.2
  | none => .error ()

/-- Raising Python dict subscript with integer keys. -/
def dictGetZE (d : List (Int × Int)) (k : Int) : Except Unit Int :=
  match d.find? (fun e => e.1 == k) with
  | some e => .ok e.2
  | none => .error ()

/-- The quality/number branch of `Interval.from_name` with every dict
subscript (`{"p":0,"u":0,"a":1}[...]`, `{"p":0,"d":-1,"a":1}[...]`,
`{0:0,3:5,4:7}[sn]`, `{1:2,2:4,5:9,6:11}[sn]`) modelled as a raising
lookup; the `.get(..., default)` calls never raise and stay pure.  This
code runs outside the `try` block, so a `.error` here would escape
`from_name`. -/
def intervalParseQNE (q : Nat) (number : Int) : Except Unit (Option Int) :=
  if number ≤ 0 then .ok none
  else if number = 1 then
    if lowerC q = 112 ∨ lowerC q = 117 ∨ lowerC q = 97 then
      match dictGetE [(112, 0), (117, 0), (97, 1)] (lowerC q) with
      | .error e => .error e
      | .ok v => .ok (some v)
    else .ok none
  else
    let octaves := (number - 1) / 7
    let sn := (number - 1) % 7
    if sn = 0 ∨ sn = 3 ∨ sn = 4 then
      if lowerC q = 112 ∨ lowerC q = 97 ∨ lowerC q = 100 then
        match dictGetE [(112, 0), (100, -1), (97, 1)] (lowerC q),
            dictGetZE [(0, 0), (3, 5), (4, 7)] sn with
        | .ok shift, .ok base => .ok (some (base + 12 * octaves + shift))
        | .error e, _ => .error e
        | _, .error e => .error e
      else .ok none
    else
      if lowerC q = 97 ∨ lowerC q = 100 ∨ lowerC q = 109 then
        let shift : Int := (if lowerC q = 100 then -2 else if lowerC q = 97 then 1 else 0)
          + (if q = 109 then -1 else 0)
        match dictGetZE [(1, 2), (2, 4), (5, 9), (6, 11)] sn with
        | .ok base => .ok (some (base + 12 * octaves + shift))
        | .error e => .error e
      else .ok none

/-- `Interval.from_name` with exception semantics: the `try` block wraps
`name[0]` and `int(name[1:])` and the handler returns `None`. -/
def intervalFromNameE (name : PyStr) : Except Unit (Option Int) :=
  match pyIndexE name 0, pyIntE (name.drop 1) with
  | .ok q, .ok number => intervalParseQNE q number
  | _, _ => .ok none

/-- `IntervalClass.from_name` with exception semantics. -/
def icFromNameE (name : PyStr) : Except Unit (Option Int) :=
  match intervalFromNameE name with
  | .ok v => .ok (v.map (fun x => x % 12))
  | .error e => .error e

/-- Raising `name_map[name]` lookup for `PitchClass.from_name`. -/
def lookupLetterE (k : List Nat) : Except Unit Int :=
  match lookupLetter k with
  | some r => .ok r
  | none => .error ()

/-- `PitchClass.from_name` with exception semantics: the only dict
subscript is guarded by `if name in name_map`, everything else is a
loop over characters; there is no `try` block. -/
def pcFromNameE (name0 : PyStr) : Except Unit (Option PC) :=
  let name := name0.map lowerC
  match pcStripRev name.reverse 0 with
  | none => .ok none
  | some (baseRev, shift) =>
    if (lookupLetter baseRev.reverse).isSome then
      match lookupLetterE baseRev.reverse with
      | .error e => .error e
      | .ok r =>
        let accidental := if 0 ≤ shift ∧ ¬(r = 4 ∨ r = 11) then shift - 1 else shift
        .ok (some ⟨(r + shift) % 12, accidental⟩)
    else .ok none

/-- `MIDInn.from_name` with exception semantics: the `try` block wraps
`name[idx]`, the `pc.value` attribute access (an `AttributeError` when
`PitchClass.from_name` returned `None`) and `int(name[idx+1:])`; the
handler returns `None`. -/
def midiFromNameE (name : PyStr) : Except Unit (Option Int) :=
  let idx0 := scanIdx name
  match (do
    let c ← pyIndexE name idx0
    let j := if c = 45 then idx0 else idx0 + 1
    let pcO ← pcFromNameE (name.take j)
    let pc ← (match pcO with
      | some pc => Except.ok pc
      | none => Except.error ())
    let o ← pyIntE (name.drop j)
    pure (pc, o) : Except Unit (PC × Int)) with
  | .error _ => .ok none
  | .ok (pc, o) =>
    let octave := o - (pc.value - pc.acc) / 12
    .ok (some (midiNorm (60 + pc.value + (octave - 4) * 12)))

/-- Python dict lookup over the insertion-ordered entry list of
`Score.data` (generic in the key type; Python `==` on the key values the
program stores is structural equality). -/
def dataGet {K : Type} [DecidableEq K] : List (K × (Nat × Nat)) → K → Option (Nat × Nat)
  | [], _ => none
  | (k0, v) :: rest, k => if k0 = k then some v else dataGet rest k

/-- Python dict assignment `self.data[k] = v`: replaces the value of the
entry holding `k`, or appends a new entry (dicts preserve insertion
order). -/
def dataSet {K : Type} [DecidableEq K] :
    List (K × (Nat × Nat)) → K → Nat × Nat → List (K × (Nat × Nat))
  | [], k, v => [(k, v)]
  | (k0, v0) :: rest, k, v =>
    if k0 = k then (k0, v) :: rest else (k0, v0) :: dataSet rest k v

/-- `Score._store` (`src/transpose.py` lines 567-579): bump
`(correct, total)` at the key, creating `(int(ok), 1)` when absent. -/
def scoreStoreRec {K : Type} [DecidableEq K] (d : List (K × (Nat × Nat))) (ok : Bool)
    (key : K) : List (K × (Nat × Nat)) :=
  match dataGet d key with
  | some (c, t) => dataSet d key (c + (if ok then 1 else 0), t + 1)
  | none => dataSet d key ((if ok then 1 else 0), 1)

/-- One iteration of the `for k, v in score.data.items()` loop of
`Score.__iadd__` (`src/transpose.py` lines 609-614). -/
def mergeStep {K : Type} [DecidableEq K] (d : List (K × (Nat × Nat))) (e : K × (Nat × Nat)) :
    List (K × (Nat × Nat)) :=
  match dataGet d e.1 with
  | some (c, t) => dataSet d e.1 (c + e.2.1, t + e.2.2)
  | none => dataSet d e.1 e.2

/-- The data part of `Score.__iadd__` (and hence of `Score.__add__`,
which copies the left store and then runs `__iadd__`): fold the right
store's entries into the left one. -/
def mergeData {K : Type} [DecidableEq K] (a b : List (K × (Nat × Nat))) :
    List (K × (Nat × Nat)) :=
  b.foldl mergeStep a

/-- Pointwise optional sum of `(correct, total)` pairs. -/
def addOpt : Option (Nat × Nat) → Option (Nat × Nat) → Option (Nat × Nat)
  | none, y => y
  | some x, none => some x
  | some x, some y => some (x.1 + y.1, x.2 + y.2)

/-- Sum of every entry of the list holding the key (entries beyond the
first can only arise in lists a Python dict could not produce, but the
merge lemmas hold for them too). -/
def keySum {K : Type} [DecidableEq K] : List (K × (Nat × Nat)) → K → Option (Nat × Nat)
  | [], _ => none
  | e :: rest, k => if e.1 = k then addOpt (some e.2) (keySum rest k) else keySum rest k

mutual

/-- The Python values the scoring layer handles: `None`, ints, strings,
lists and tuples (a mutual inductive so that decidable equality — the
model of structural Python `==` on these values — can be derived). -/
inductive PyVal
  | none
  | int (n : Int)
  | str (s : List Nat)
  | list (l : PyList)
  | tuple (l : PyList)
deriving DecidableEq

/-- The element spine of a Python list or tuple. -/
inductive PyList
  | nil
  | cons (hd : PyVal) (tl : PyList)
deriving DecidableEq
end

/-- The elements of a Python list/tuple spine, as a Lean list. -/
def PyList.toList : PyList → List PyVal
  | .nil => []
  | .cons h t => h :: t.toList

/-- Build a Python list/tuple spine from a Lean list. -/
def PyList.ofList : List PyVal → PyList
  | [] => .nil
  | h :: t => .cons h (PyList.ofList t)

/-- `cont(p)` (`src/transpose.py` lines 12-22): `0 in p` succeeds on
lists and tuples; on ints, `None` and also on strings it raises
`TypeError` (the left operand of `in` on a `str` must be a `str`), which
`cont` catches, returning `False`. -/
def pyCont : PyVal → Bool
  | .list _ => true
  | .tuple _ => true
  | _ => false

/-- Python `x in c` for a list or tuple `c` (elementwise `==`). -/
def pyMem (x : PyVal) (c : PyVal) : Bool :=
  match c with
  | .list l => (l.toList).any (fun y => decide (y = x))
  | .tuple l => (l.toList).any (fun y => decide (y = x))
  | _ => false

/-- `k[i]` on a stored key tuple.  `Score.total` indexes the key by the
filter position; an arity mismatch would raise `IndexError` (a caller
contract violation per the spec), modelled by a `None` default. -/
def pyIndexVal (k : PyVal) (i : Nat) : PyVal :=
  match k with
  | .tuple l => (l.toList).getD i .none
  | .list l => (l.toList).getD i .none
  | _ => .none

/-- One filter test of `Score.total` (`src/transpose.py` lines 656-662):
the entry survives the column when the filter is `None`, or the filter
is a container holding the component, or equals the component. -/
def colPass (ki c : PyVal) : Bool :=
  match c with
  | .none => true
  | _ => (pyCont c && pyMem ki c) || decide (ki = c)

/-- All positional filters pass on one stored key. -/
def rowPass (k : PyVal) (cols : List PyVal) : Bool :=
  cols.enum.all (fun p => colPass (pyIndexVal k p.1) p.2)

/-- `Score.total` (`src/transpose.py` lines 629-666): sum the
`(correct, total)` pairs of the entries whose keys pass every filter. -/
def scoreTotal (d : List (PyVal × (Nat × Nat))) (cols : List PyVal) : Nat × Nat :=
  d.foldl
    (fun acc kv => if rowPass kv.1 cols then (acc.1 + kv.2.1, acc.2 + kv.2.2) else acc)
    (0, 0)

/-- The argument normalization of `normalized_product`
(`src/transpose.py` line 1114): a non-list argument becomes a
one-element list (note: a tuple is not a Python `list`). -/
def toLists (args : List PyVal) : List (List PyVal) :=
  args.map (fun a =>
    match a with
    | .list l => l.toList
    | _ => [a])

/-- `itertools.product`: leftmost argument varies slowest. -/
def cartProd : List (List PyVal) → List (List PyVal)
  | [] => [[]]
  | l :: rest => l.flatMap (fun x => (cartProd rest).map (fun row => x :: row))

/-- The per-pick normalization of `normalized_product`
(`src/transpose.py` lines 1116-1117): wrap into a one-element list
unless the value is `None` or already a container. -/
def normPick (v : PyVal) : PyVal :=
  if v ≠ PyVal.none ∧ ¬ pyCont v then .list (.cons v .nil) else v

/-- `normalized_product` (`src/transpose.py` lines 1074-1118), with the
yielded tuples collected into a list of rows. -/
def normalized_product (args : List PyVal) : List (List PyVal) :=
  (cartProd (toLists args)).map (List.map normPick)

/-- `Integral.__iadd__` (`src/transpose.py` lines 61-63): the pair is
(the mutated, re-normalized object state, the method's Python return
value — `None`, there being no `return` statement; `some` would model
returning the object). -/
def integralIadd (norm : Int → Int) (n s : Int) : Int × Option Int :=
  (norm (n + s), none)

/-- `Integral.__isub__` (`src/transpose.py` lines 64-66). -/
def integralIsub (norm : Int → Int) (n s : Int) : Int × Option Int :=
  (norm (n - s), none)

/-- `Integral.__imul__` (`src/transpose.py` lines 67-69). -/
def integralImul (norm : Int → Int) (n s : Int) : Int × Option Int :=
  (norm (n * s), none)

/-- `Torsor(cls).t.__iadd__` (`src/transpose.py` lines 136-137): the
body `self.v += s` rebinds the attribute `v` to the return value of
`Integral.__iadd__`, and the method itself returns `None`.  The pair is
(the new binding of `self.v`, the method's return value). -/
def torsorIadd (norm : Int → Int) (v s : Int) : Option Int × Option Int :=
  ((integralIadd norm v s).2, none)

/-- `Torsor(cls).t.__isub__` (`src/transpose.py` lines 138-139). -/
def torsorIsub (norm : Int → Int) (v s : Int) : Option Int × Option Int :=
  ((integralIsub norm v s).2, none)

/-- Python's augmented assignment `x += s` on a name bound to an
`Integral` object: `x` is rebound to what `__iadd__` returns. -/
def augAssignIadd (norm : Int → Int) (n s : Int) : Option Int :=
  (integralIadd norm n s).2

/-- `Z12.norm` (`src/transpose.py` lines 88-92). -/
def z12Norm (n : Int) : Int := n % 12

/-- `Integral.norm` (`src/transpose.py` lines 36-45): identity. -/
def integralNorm (n : Int) : Int := n

/-- The Python key `("A", 1)` of the C5 scenario. -/
def keyA1 : PyVal := .tuple (.cons (.str [65]) (.cons (.int 1) .nil))

theorem natReprAux_spec (fuel : Nat) :
    ∀ n, n < fuel →
      natReprAux fuel n ≠ [] ∧ ∀ c ∈ natReprAux fuel n, 48 ≤ c ∧ c ≤ 57 := by
  induction fuel with
  | zero => intro n h; exact absurd h (Nat.not_lt_zero n)
  | succ fuel ih =>
    intro n h
    by_cases h10 : n < 10
    · refine ⟨by simp [natReprAux, h10], ?_⟩
      intro c hc
      simp [natReprAux, h10] at hc
      omega
    · have hlt : n / 10 < fuel := by omega
      obtain ⟨hne, hdig⟩ := ih (n / 10) hlt
      constructor
      · simp [natReprAux, h10]
      · intro c hc
        simp only [natReprAux, if_neg h10, List.mem_append, List.mem_singleton] at hc
        rcases hc with hc | hc
        · exact hdig c hc
        · omega

theorem digitsToNat_natReprAux (fuel : Nat) :
    ∀ n acc rest, n < fuel →
      digitsToNat (natReprAux fuel n ++ rest) acc
        = digitsToNat rest (acc * 10 ^ (natReprAux fuel n).length + n) := by
  induction fuel with
  | zero => intro n acc rest h; exact absurd h (Nat.not_lt_zero n)
  | succ fuel ih =>
    intro n acc rest h
    by_cases h10 : n < 10
    · simp only [natReprAux, if_pos h10, List.cons_append, List.nil_append,
        digitsToNat, List.length_singleton]
      rw [if_pos (by omega)]
      congr 1
      simp only [pow_one]
      omega
    · have hlt : n / 10 < fuel := by omega
      simp only [natReprAux, if_neg h10, List.append_assoc, List.cons_append,
        List.nil_append, List.length_append, List.length_singleton]
      rw [ih (n / 10) acc ((48 + n % 10) :: rest) hlt]
      simp only [digitsToNat]
      rw [if_pos (by omega)]
      congr 1
      have hdm : n / 10 * 10 + n % 10 = n := by omega
      have h48 : 48 + n % 10 - 48 = n % 10 := by omega
      rw [pow_succ, h48, Nat.add_mul, Nat.add_assoc, hdm, Nat.mul_assoc]

theorem pyIntParse_natRepr (n : Nat) : pyIntParse (natRepr n) = some (n : Int) := by
  obtain ⟨hne, hdig⟩ := natReprAux_spec (n + 1) n (Nat.lt_succ_self n)
  have hval : digitsToNat (natReprAux (n + 1) n) 0 = some n := by
    have h := digitsToNat_natReprAux (n + 1) n 0 [] (Nat.lt_succ_self n)
    simpa [digitsToNat] using h
  unfold natRepr
  cases hcs : natReprAux (n + 1) n with
  | nil => exact absurd hcs hne
  | cons c cs =>
    rw [hcs] at hval hdig
    have hc := hdig c (List.mem_cons_self c cs)
    simp only [pyIntParse]
    rw [if_neg (by omega), if_neg (by omega), hval]
    rfl

theorem intervalParseQN_roundtrip (k r : Nat) (hr : r < 12) (hpos : 0 < 12 * k + r) :
    intervalParseQN (intervalQualityTab r) ((intervalNumberTab r + 7 * k : Nat) : Int)
      = some ((12 * k + r : Nat) : Int) := by
  interval_cases r
  · have hq : intervalQualityTab 0 = 80 := by decide
    have hn : intervalNumberTab 0 = 1 := by decide
    rw [hq, hn]
    push_cast
    have h1 : ¬((1 : Int) + 7 * (k : Int) = 1) := by omega
    have hoct : ((1 : Int) + 7 * (k : Int) - 1) / 7 = (k : Int) := by omega
    have hsn : ((1 : Int) + 7 * (k : Int) - 1) % 7 = 0 := by omega
    simp [intervalParseQN, hoct, hsn, lowerC, h1]
    omega
  · have hq : intervalQualityTab 1 = 109 := by decide
    have hn : intervalNumberTab 1 = 2 := by decide
    rw [hq, hn]
    push_cast
    have h1 : ¬((2 : Int) + 7 * (k : Int) = 1) := by omega
    have hoct : ((2 : Int) + 7 * (k : Int) - 1) / 7 = (k : Int) := by omega
    have hsn : ((2 : Int) + 7 * (k : Int) - 1) % 7 = 1 := by omega
    simp [intervalParseQN, hoct, hsn, lowerC, h1]
    omega
  · have hq : intervalQualityTab 2 = 77 := by decide
    have hn : intervalNumberTab 2 = 2 := by decide
    rw [hq, hn]
    push_cast
    have h1 : ¬((2 : Int) + 7 * (k : Int) = 1) := by omega
    have hoct : ((2 : Int) + 7 * (k : Int) - 1) / 7 = (k : Int) := by omega
    have hsn : ((2 : Int) + 7 * (k : Int) - 1) % 7 = 1 := by omega
    simp [intervalParseQN, hoct, hsn, lowerC, h1]
    omega
  · have hq : intervalQualityTab 3 = 109 := by decide
    have hn : intervalNumberTab 3 = 3 := by decide
    rw [hq, hn]
    push_cast
    have h1 : ¬((3 : Int) + 7 * (k : Int) = 1) := by omega
    have hoct : ((3 : Int) + 7 * (k : Int) - 1) / 7 = (k : Int) := by omega
    have hsn : ((3 : Int) + 7 * (k : Int) - 1) % 7 = 2 := by omega
    simp [intervalParseQN, hoct, hsn, lowerC, h1]
    omega
  · have hq : intervalQualityTab 4 = 77 := by decide
    have hn : intervalNumberTab 4 = 3 := by decide
    rw [hq, hn]
    push_cast
    have h1 : ¬((3 : Int) + 7 * (k : Int) = 1) := by omega
    have hoct : ((3 : Int) + 7 * (k : Int) - 1) / 7 = (k : Int) := by omega
    have hsn : ((3 : Int) + 7 * (k : Int) - 1) % 7 = 2 := by omega
    simp [intervalParseQN, hoct, hsn, lowerC, h1]
    omega
  · have hq : intervalQualityTab 5 = 80 := by decide
    have hn : intervalNumberTab 5 = 4 := by decide
    rw [hq, hn]
    push_cast
    have h1 : ¬((4 : Int) + 7 * (k : Int) = 1) := by omega
    have hoct : ((4 : Int) + 7 * (k : Int) - 1) / 7 = (k : Int) := by omega
    have hsn : ((4 : Int) + 7 * (k : Int) - 1) % 7 = 3 := by omega
    simp [intervalParseQN, hoct, hsn, lowerC, h1]
    omega
  · have hq : intervalQualityTab 6 = 100 := by decide
    have hn : intervalNumberTab 6 = 5 := by decide
    rw [hq, hn]
    push_cast
    have h1 : ¬((5 : Int) + 7 * (k : Int) = 1) := by omega
    have hoct : ((5 : Int) + 7 * (k : Int) - 1) / 7 = (k : Int) := by omega
    have hsn : ((5 : Int) + 7 * (k : Int) - 1) % 7 = 4 := by omega
    simp [intervalParseQN, hoct, hsn, lowerC, h1]
    omega
  · have hq : intervalQualityTab 7 = 80 := by decide
    have hn : intervalNumberTab 7 = 5 := by decide
    rw [hq, hn]
    push_cast
    have h1 : ¬((5 : Int) + 7 * (k : Int) = 1) := by omega
    have hoct : ((5 : Int) + 7 * (k : Int) - 1) / 7 = (k : Int) := by omega
    have hsn : ((5 : Int) + 7 * (k : Int) - 1) % 7 = 4 := by omega
    simp [intervalParseQN, hoct, hsn, lowerC, h1]
    omega
  · have hq : intervalQualityTab 8 = 109 := by decide
    have hn : intervalNumberTab 8 = 6 := by decide
    rw [hq, hn]
    push_cast
    have h1 : ¬((6 : Int) + 7 * (k : Int) = 1) := by omega
    have hoct : ((6 : Int) + 7 * (k : Int) - 1) / 7 = (k : Int) := by omega
    have hsn : ((6 : Int) + 7 * (k : Int) - 1) % 7 = 5 := by omega
    simp [intervalParseQN, hoct, hsn, lowerC, h1]
    omega
  · have hq : intervalQualityTab 9 = 77 := by decide
    have hn : intervalNumberTab 9 = 6 := by decide
    rw [hq, hn]
    push_cast
    have h1 : ¬((6 : Int) + 7 * (k : Int) = 1) := by omega
    have hoct : ((6 : Int) + 7 * (k : Int) - 1) / 7 = (k : Int) := by omega
    have hsn : ((6 : Int) + 7 * (k : Int) - 1) % 7 = 5 := by omega
    simp [intervalParseQN, hoct, hsn, lowerC, h1]
    omega
  · have hq : intervalQualityTab 10 = 109 := by decide
    have hn : intervalNumberTab 10 = 7 := by decide
    rw [hq, hn]
    push_cast
    have h1 : ¬((7 : Int) + 7 * (k : Int) = 1) := by omega
    have hoct : ((7 : Int) + 7 * (k : Int) - 1) / 7 = (k : Int) := by omega
    have hsn : ((7 : Int) + 7 * (k : Int) - 1) % 7 = 6 := by omega
    simp [intervalParseQN, hoct, hsn, lowerC, h1]
    omega
  · have hq : intervalQualityTab 11 = 77 := by decide
    have hn : intervalNumberTab 11 = 7 := by decide
    rw [hq, hn]
    push_cast
    have h1 : ¬((7 : Int) + 7 * (k : Int) = 1) := by omega
    have hoct : ((7 : Int) + 7 * (k : Int) - 1) / 7 = (k : Int) := by omega
    have hsn : ((7 : Int) + 7 * (k : Int) - 1) % 7 = 6 := by omega
    simp [intervalParseQN, hoct, hsn, lowerC, h1]
    omega

theorem interval_roundtrip_nonneg (n : Int) (hn : 0 ≤ n) :
    intervalFromName (intervalStr n) = some n := by
  by_cases h0 : n = 0
  · subst h0; decide
  · have hneg : ¬ n < 0 := by omega
    have hvpos : 0 < n.natAbs := by omega
    have hguard : ¬(n.natAbs / 12 = 0 ∧ n.natAbs % 12 = 0) := by omega
    have hstr : intervalStr n
        = intervalQualityTab (n.natAbs % 12)
            :: natRepr (intervalNumberTab (n.natAbs % 12) + 7 * (n.natAbs / 12)) := by
      simp only [intervalStr, if_neg hguard, if_neg hneg]
      simp
    rw [hstr]
    simp only [intervalFromName,
      pyIntParse_natRepr (intervalNumberTab (n.natAbs % 12) + 7 * (n.natAbs / 12))]
    rw [intervalParseQN_roundtrip (n.natAbs / 12) (n.natAbs % 12) (by omega) (by omega)]
    congr 1
    omega

theorem intervalParseQNE_ok (q : Nat) (number : Int) :
    intervalParseQNE q number = .ok (intervalParseQN q number) := by
  simp only [intervalParseQNE, intervalParseQN]
  by_cases h0 : number ≤ 0
  · simp [h0]
  · simp only [if_neg h0]
    by_cases h1 : number = 1
    · simp only [if_pos h1]
      by_cases h2 : lowerC q = 112 ∨ lowerC q = 117 ∨ lowerC q = 97
      · rcases h2 with h | h | h <;> simp [h, dictGetE]
      · simp [h2]
    · simp only [if_neg h1]
      by_cases hsn : (number - 1) % 7 = 0 ∨ (number - 1) % 7 = 3 ∨ (number - 1) % 7 = 4
      · simp only [if_pos hsn]
        by_cases h2 : lowerC q = 112 ∨ lowerC q = 97 ∨ lowerC q = 100
        · rcases h2 with h | h | h <;> rcases hsn with hs | hs | hs <;>
            simp [h, hs, dictGetE, dictGetZE]
        · simp [h2]
      · simp only [if_neg hsn]
        by_cases h2 : lowerC q = 97 ∨ lowerC q = 100 ∨ lowerC q = 109
        · have hmem : (number - 1) % 7 = 1 ∨ (number - 1) % 7 = 2
              ∨ (number - 1) % 7 = 5 ∨ (number - 1) % 7 = 6 := by omega
          rcases h2 with h | h | h <;> rcases hmem with hs | hs | hs | hs <;>
            simp [h, hs, dictGetZE]
        · simp [h2]

theorem intervalFromNameE_ok (name : PyStr) :
    intervalFromNameE name = .ok (intervalFromName name) := by
  cases name with
  | nil => rfl
  | cons q rest =>
    simp only [intervalFromNameE, intervalFromName, pyIndexE, pyIntE, List.get?,
      List.drop_succ_cons, List.drop_zero]
    cases hp : pyIntParse rest with
    | none => rfl
    | some num => simp [intervalParseQNE_ok]

theorem icFromNameE_ok (name : PyStr) :
    icFromNameE name = .ok (icFromName name) := by
  simp only [icFromNameE, icFromName, intervalFromNameE_ok]

theorem pcFromNameE_ok (name0 : PyStr) :
    pcFromNameE name0 = .ok (pcFromName name0) := by
  simp only [pcFromNameE, pcFromName]
  cases hs : pcStripRev ((name0.map lowerC).reverse) 0 with
  | none => rfl
  | some pr =>
    obtain ⟨baseRev, shift⟩ := pr
    cases hl : lookupLetter baseRev.reverse with
    | none => simp [hl, lookupLetterE]
    | some r => simp [hl, lookupLetterE]

theorem midiFromNameE_ok (name : PyStr) :
    midiFromNameE name = .ok (midiFromName name) := by
  simp only [midiFromNameE, midiFromName, pyIndexE, List.get?_eq_getElem?]
  cases hc : name[scanIdx name]? with
  | none => simp [hc, bind, Except.bind]
  | some c =>
    simp only [hc, bind, Except.bind, pcFromNameE_ok]
    cases hpc : pcFromName (name.take (if c = 45 then scanIdx name else scanIdx name + 1)) with
    | none => rfl
    | some pc =>
      simp only [pyIntE, Functor.map, Except.map]
      cases ho : pyIntParse (name.drop (if c = 45 then scanIdx name else scanIdx name + 1)) with
      | none => rfl
      | some o => rfl

theorem addOpt_assoc (x y z : Option (Nat × Nat)) :
    addOpt (addOpt x y) z = addOpt x (addOpt y z) := by
  cases x <;> cases y <;> cases z <;> simp [addOpt] <;> omega

theorem dataGet_dataSet {K : Type} [DecidableEq K] (d : List (K × (Nat × Nat))) (k k2 : K)
    (v : Nat × Nat) :
    dataGet (dataSet d k v) k2 = if k = k2 then some v else dataGet d k2 := by
  induction d with
  | nil => simp [dataGet, dataSet]
  | cons e rest ih =>
    obtain ⟨k0, v0⟩ := e
    by_cases h : k0 = k
    · subst h
      by_cases h2 : k0 = k2 <;> simp [dataGet, dataSet, h2]
    · by_cases h2 : k0 = k2
      · subst h2
        have h3 : ¬ k = k0 := fun hh => h hh.symm
        simp [dataGet, dataSet, h, h3]
      · simp [dataGet, dataSet, h, h2, ih]

theorem dataGet_mergeStep {K : Type} [DecidableEq K] (d : List (K × (Nat × Nat)))
    (e : K × (Nat × Nat)) (k : K) :
    dataGet (mergeStep d e) k
      = if e.1 = k then addOpt (dataGet d e.1) (some e.2) else dataGet d k := by
  unfold mergeStep
  cases hg : dataGet d e.1 with
  | none =>
    rw [dataGet_dataSet]
    by_cases h : e.1 = k
    · rw [if_pos h, if_pos h]
      simp [addOpt]
    · rw [if_neg h, if_neg h]
  | some v =>
    obtain ⟨c, t⟩ := v
    rw [dataGet_dataSet]
    by_cases h : e.1 = k
    · rw [if_pos h, if_pos h]
      simp [addOpt]
    · rw [if_neg h, if_neg h]

theorem addOpt_some_shift (v e : Nat × Nat) (s : Option (Nat × Nat)) :
    addOpt (some (v.1 + e.1, v.2 + e.2)) s = addOpt (addOpt (some v) s) (some e) := by
  cases s <;> simp [addOpt] <;> omega

theorem keySum_mergeStep {K : Type} [DecidableEq K] (d : List (K × (Nat × Nat)))
    (e : K × (Nat × Nat)) (k : K) :
    keySum (mergeStep d e) k
      = if e.1 = k then addOpt (keySum d k) (some e.2) else keySum d k := by
  induction d with
  | nil =>
    by_cases h : e.1 = k <;>
      simp [mergeStep, dataGet, dataSet, keySum, h, addOpt]
  | cons hd rest ih =>
    obtain ⟨k0, v0⟩ := hd
    by_cases h : e.1 = k0
    · have hstep : mergeStep ((k0, v0) :: rest) e
          = (k0, (v0.1 + e.2.1, v0.2 + e.2.2)) :: rest := by
        simp [mergeStep, dataGet, dataSet, h.symm]
      rw [hstep]
      by_cases h2 : k0 = k
      · have he : e.1 = k := h.trans h2
        simp only [keySum, if_pos h2, if_pos he]
        exact addOpt_some_shift v0 e.2 (keySum rest k)
      · have he : ¬ e.1 = k := fun hh => h2 (h.symm.trans hh)
        simp only [keySum, if_neg h2, if_neg he]
    · have hstep : mergeStep ((k0, v0) :: rest) e = (k0, v0) :: mergeStep rest e := by
        have hne : ¬ k0 = e.1 := fun hh => h hh.symm
        unfold mergeStep
        cases hg : dataGet rest e.1 with
        | none => simp [dataGet, hne, hg, dataSet]
        | some v => simp [dataGet, hne, hg, dataSet]
      rw [hstep]
      by_cases h2 : k0 = k
      · by_cases h3 : e.1 = k
        · exact absurd (h3.trans h2.symm) h
        · simp only [keySum, if_pos h2, if_neg h3, ih, if_neg h3]
      · by_cases h3 : e.1 = k
        · simp only [keySum, if_neg h2, if_pos h3, ih]
        · simp only [keySum, if_neg h2, if_neg h3, ih]

theorem dataGet_mergeData {K : Type} [DecidableEq K] (b a : List (K × (Nat × Nat))) (k : K) :
    dataGet (mergeData a b) k = addOpt (dataGet a k) (keySum b k) := by
  induction b generalizing a with
  | nil =>
    cases h : dataGet a k <;> simp [mergeData, keySum, addOpt, h]
  | cons e bs ih =>
    have hfold : mergeData a (e :: bs) = mergeData (mergeStep a e) bs := rfl
    rw [hfold, ih, dataGet_mergeStep]
    simp only [keySum]
    by_cases h : e.1 = k
    · rw [if_pos h, if_pos h, h, addOpt_assoc]
    · rw [if_neg h, if_neg h]

theorem keySum_mergeData {K : Type} [DecidableEq K] (b a : List (K × (Nat × Nat))) (k : K) :
    keySum (mergeData a b) k = addOpt (keySum a k) (keySum b k) := by
  induction b generalizing a with
  | nil =>
    cases h : keySum a k <;> simp [mergeData, keySum, addOpt, h]
  | cons e bs ih =>
    have hfold : mergeData a (e :: bs) = mergeData (mergeStep a e) bs := rfl
    rw [hfold, ih, keySum_mergeStep]
    conv_rhs => rw [keySum]
    by_cases h : e.1 = k
    · rw [if_pos h, if_pos h, addOpt_assoc]
    · rw [if_neg h, if_neg h]

theorem emod12_mem_allTwelve (a : Int) :
    a % 12 ∈ ([0, 2, 4, 5, 7, 9, 11, 1, 3, 6, 8, 10] : List Int) := by
  have h : a % 12 = 0 ∨ a % 12 = 1 ∨ a % 12 = 2 ∨ a % 12 = 3 ∨ a % 12 = 4 ∨ a % 12 = 5
      ∨ a % 12 = 6 ∨ a % 12 = 7 ∨ a % 12 = 8 ∨ a % 12 = 9 ∨ a % 12 = 10 ∨ a % 12 = 11 := by
    omega
  rcases h with h | h | h | h | h | h | h | h | h | h | h | h <;> rw [h] <;> decide

/-- C1 (counterexample): the printed name of the descending interval
`Interval(-1)` is "-m2", and `Interval.from_name` returns `None` on it
(`int("m2")` raises inside the `try`), so `from_name(str(v)) == v`
fails for `v = Interval(-1)`. -/
theorem claim_C1_cex :
    intervalStr (-1) = [45, 109, 50] ∧ intervalFromName [45, 109, 50] = none
      ∧ intervalFromName (intervalStr (-1)) ≠ some (-1) := by
  decide

/-- C1 (amended): for every nonnegative `Interval` value `v`, parsing
the printed name recovers the value: `from_name(str(v)) == v`; negative
values do not round-trip (their printed name starts with a minus sign,
which `from_name` cannot parse). -/
theorem claim_C1 : ∀ n : Int, 0 ≤ n → intervalFromName (intervalStr n) = some n :=
  fun n hn => interval_roundtrip_nonneg n hn

theorem claim_C1_witness : (0 : Int) ≤ 19 ∧ intervalFromName (intervalStr 19) = some 19 :=
  ⟨by decide, claim_C1 19 (by decide)⟩

/-- C2 (counterexample): `PitchClass.from_name("C")` stores
`(value, accidental) = (0, -1)`, whose residue
`(value - accidental) mod 12 = 1` is not a natural-letter residue. -/
theorem claim_C2_cex :
    pcFromName [67] = some ⟨0, -1⟩
      ∧ (((0 : Int) - (-1)) % 12) ∉ ([0, 2, 4, 5, 7, 9, 11] : List Int) := by
  decide

/-- C2 (amended): for every `PitchClass` produced by `from_name`, and
still after any `+`/`-` of an interval class, `(value - accidental) mod
12` lies in the union of the seven natural-letter residues
{0,2,4,5,7,9,11} and the five sharp residues {1,3,6,8,10} (the latter
arise because naturals and sharps of letters other than E and B store
`accidental = shift - 1`); `__str__` maps the whole union through
`BASE_NAMES`. -/
theorem claim_C2 : ∀ (name : PyStr) (pc : PC), pcFromName name = some pc →
    ((pc.value - pc.acc) % 12 ∈ ([0, 2, 4, 5, 7, 9, 11, 1, 3, 6, 8, 10] : List Int)
      ∧ ∀ s : Int,
        ((pcAdd pc s).value - (pcAdd pc s).acc) % 12
            ∈ ([0, 2, 4, 5, 7, 9, 11, 1, 3, 6, 8, 10] : List Int)
          ∧ ((pcSub pc s).value - (pcSub pc s).acc) % 12
            ∈ ([0, 2, 4, 5, 7, 9, 11, 1, 3, 6, 8, 10] : List Int)) :=
  fun _ pc _ =>
    ⟨emod12_mem_allTwelve (pc.value - pc.acc),
     fun s =>
      ⟨emod12_mem_allTwelve ((pcAdd pc s).value - (pcAdd pc s).acc),
       emod12_mem_allTwelve ((pcSub pc s).value - (pcSub pc s).acc)⟩⟩

theorem claim_C2_witness :
    (((⟨0, -1⟩ : PC).value - (⟨0, -1⟩ : PC).acc) % 12
        ∈ ([0, 2, 4, 5, 7, 9, 11, 1, 3, 6, 8, 10] : List Int)
      ∧ ∀ s : Int,
        ((pcAdd ⟨0, -1⟩ s).value - (pcAdd ⟨0, -1⟩ s).acc) % 12
            ∈ ([0, 2, 4, 5, 7, 9, 11, 1, 3, 6, 8, 10] : List Int)
          ∧ ((pcSub ⟨0, -1⟩ s).value - (pcSub ⟨0, -1⟩ s).acc) % 12
            ∈ ([0, 2, 4, 5, 7, 9, 11, 1, 3, 6, 8, 10] : List Int)) :=
  claim_C2 [67] ⟨0, -1⟩ (by decide)

/-- C3: for every note number in [0,127], `MIDInn.from_name` applied to
`str(MIDInn(n))` recovers `n`, including the negative-octave names
(e.g. "C-1" for 0) and the sharp spellings of residues {1,3,6,8,10}. -/
theorem claim_C3 : ∀ n : Nat, n < 128 → midiFromName (midiStr n) = some n := by
  decide

theorem claim_C3_witness : midiFromName (midiStr 60) = some 60 :=
  claim_C3 60 (by decide)

/-- C4 (counterexample): "B#4" parses to 72 and "C5" also parses to 72,
so the value parsed from "B#4" is not one semitone above the value
parsed from "C5". -/
theorem claim_C4_cex :
    midiFromName [66, 35, 52] = some 72 ∧ midiFromName [67, 53] = some 72
      ∧ midiFromName [66, 35, 52] ≠ some 73 := by
  decide

/-- C4 (amended): the octave pre-adjustment by
`(residue - accidental) // 12` makes "B#4" (and its "Bs4" spelling)
parse one semitone above "B4" and equal to "C5": B4 is 71, while B#4,
Bs4 and C5 are all 72. -/
theorem claim_C4 :
    midiFromName [66, 35, 52] = some 72 ∧ midiFromName [66, 115, 52] = some 72
      ∧ midiFromName [67, 53] = some 72 ∧ midiFromName [66, 52] = some 71 := by
  decide

/-- C5: after `record(True, ("A",1)); record(False, ("A",1))` on an
empty store, `total(("A",1))` and `total(None)` both return `(1, 2)`. -/
theorem claim_C5 :
    scoreTotal (scoreStoreRec (scoreStoreRec [] true keyA1) false keyA1) [keyA1] = (1, 2)
      ∧ scoreTotal (scoreStoreRec (scoreStoreRec [] true keyA1) false keyA1) [PyVal.none]
          = (1, 2) := by
  decide

/-- C6: merging of score data (the fold of `Score.__iadd__`, which also
implements `Score.__add__` after copying the left store) is associative
on the per-key `(correct, total)` counts, for overlapping or disjoint
key sets. -/
theorem claim_C6 {K : Type} [DecidableEq K] (a b c : List (K × (Nat × Nat))) (k : K) :
    dataGet (mergeData (mergeData a b) c) k = dataGet (mergeData a (mergeData b c)) k := by
  simp only [dataGet_mergeData, keySum_mergeData, addOpt_assoc]

theorem claim_C6_witness :
    dataGet (mergeData (mergeData [((0 : Nat), (1, 1))] [(0, (2, 3))]) [(1, (5, 5))]) 0
      = dataGet (mergeData [((0 : Nat), (1, 1))] (mergeData [(0, (2, 3))] [(1, (5, 5))])) 0 :=
  claim_C6 [((0 : Nat), (1, 1))] [(0, (2, 3))] [(1, (5, 5))] 0

/-- C7: `normalized_product([[X,Y]], None)` yields exactly the one row
`([X,Y], None)`; in general a picked `None` stays `None`, a picked bare
scalar (int or string) is wrapped into a one-element list, and a picked
nested list (or tuple) is passed through unchanged. -/
theorem claim_C7 :
    (∀ X Y : PyVal,
      normalized_product
          [.list (.cons (.list (.cons X (.cons Y .nil))) .nil), .none]
        = [[.list (.cons X (.cons Y .nil)), .none]])
    ∧ normPick .none = .none
    ∧ (∀ n : Int, normPick (.int n) = .list (.cons (.int n) .nil))
    ∧ (∀ s : List Nat, normPick (.str s) = .list (.cons (.str s) .nil))
    ∧ (∀ l : PyList, normPick (.list l) = .list l)
    ∧ (∀ l : PyList, normPick (.tuple l) = .tuple l) := by
  refine ⟨fun X Y => ?_, by decide, fun n => ?_, fun s => ?_, fun l => ?_, fun l => ?_⟩
  · simp [normalized_product, toLists, cartProd, PyList.toList, normPick, pyCont]
  · simp [normPick, pyCont]
  · simp [normPick, pyCont]
  · simp [normPick, pyCont]
  · simp [normPick, pyCont]

/-- C8 (counterexample): `Interval.from_name("m3")` is the minor third
(3 semitones) while `Interval.from_name("M3")` is the major third (4),
so the quality letter is not matched case-insensitively for m/M. -/
theorem claim_C8_cex :
    intervalFromName [109, 51] = some 3 ∧ intervalFromName [77, 51] = some 4
      ∧ intervalFromName [109, 51] ≠ intervalFromName [77, 51] := by
  decide

theorem intervalParseQN_lowerInv (q1 q2 : Nat) (number : Int) (h : lowerC q1 = lowerC q2)
    (h1 : q1 ≠ 109) (h2 : q2 ≠ 109) :
    intervalParseQN q1 number = intervalParseQN q2 number := by
  simp only [intervalParseQN, h, if_neg h1, if_neg h2]

/-- C8 (amended): the quality letter of `Interval.from_name` is matched
case-insensitively for the qualities P, U, D, A (for every positive
number the lowercase and uppercase spellings parse identically), but
not for m/M, where case distinguishes minor from major. -/
theorem claim_C8 : ∀ n : Nat, 0 < n →
    intervalFromName (112 :: natRepr n) = intervalFromName (80 :: natRepr n)
    ∧ intervalFromName (117 :: natRepr n) = intervalFromName (85 :: natRepr n)
    ∧ intervalFromName (100 :: natRepr n) = intervalFromName (68 :: natRepr n)
    ∧ intervalFromName (97 :: natRepr n) = intervalFromName (65 :: natRepr n) := by
  intro n hn
  have hp := pyIntParse_natRepr n
  refine ⟨?_, ?_, ?_, ?_⟩ <;>
    simp only [intervalFromName, hp] <;>
    exact intervalParseQN_lowerInv _ _ _ (by decide) (by decide) (by decide)

theorem claim_C8_witness :
    0 < 5
    ∧ (intervalFromName (112 :: natRepr 5) = intervalFromName (80 :: natRepr 5)
      ∧ intervalFromName (117 :: natRepr 5) = intervalFromName (85 :: natRepr 5)
      ∧ intervalFromName (100 :: natRepr 5) = intervalFromName (68 :: natRepr 5)
      ∧ intervalFromName (97 :: natRepr 5) = intervalFromName (65 :: natRepr 5)) :=
  ⟨by decide, claim_C8 5 (by decide)⟩

/-- C9: for every input string, each of the four name parsers returns
its `Option` result without an uncaught exception: the exception-level
models (`pyIndexE`, `pyIntE`, the raising dict subscripts and the
`pc.value` attribute access on `None`, with the source's `try` blocks
recovering to `None`) always produce `.ok` of the plain parse result. -/
theorem claim_C9 : ∀ name : PyStr,
    intervalFromNameE name = .ok (intervalFromName name)
    ∧ icFromNameE name = .ok (icFromName name)
    ∧ pcFromNameE name = .ok (pcFromName name)
    ∧ midiFromNameE name = .ok (midiFromName name) :=
  fun name =>
    ⟨intervalFromNameE_ok name, icFromNameE_ok name, pcFromNameE_ok name,
      midiFromNameE_ok name⟩

/-- C10: the in-place operators of `Integral` (`__iadd__`, `__isub__`,
`__imul__`) mutate the object state but return Python `None` (no
`return` statement), and the `Torsor` family's `__iadd__`/`__isub__`
(inherited by `PitchClass`) likewise return `None` — moreover their
body `self.v += s` rebinds `self.v` to `None`; consequently an
augmented assignment `x += s` leaves `x` bound to `None`. -/
theorem claim_C10 : ∀ (norm : Int → Int) (n s : Int),
    integralIadd norm n s = (norm (n + s), none)
    ∧ integralIsub norm n s = (norm (n - s), none)
    ∧ integralImul norm n s = (norm (n * s), none)
    ∧ torsorIadd norm n s = (none, none)
    ∧ torsorIsub norm n s = (none, none)
    ∧ augAssignIadd norm n s = none :=
  fun _ _ _ => ⟨rfl, rfl, rfl, rfl, rfl, rfl⟩
